import Mathlib

/-!
Verification of the BSGS private-key search in `src/src/key_finder.py`
(`KeyFinder.bsgs`, `KeyFinder.solve_puzzle`,
`KeyFinder.calculate_public_key_point`) against its specification.

Modelling choices.

The search operates, through the external `ecdsa` library, in the subgroup of
secp256k1 generated by the fixed generator `G`.  That subgroup is cyclic of
(prime) order `N` (secp256k1 has cofactor 1, so the subgroup is the whole
curve group, point at infinity included), and `k ↦ G*k` is a group isomorphism
from `ZMod N` onto it.  We therefore model a curve point by its discrete
logarithm: `Point := ZMod N`, generator `G_pt := 1`, point addition `+`,
negation `-`, and `ecdsa`'s `Point.__mul__` — which reduces the scalar modulo
the point's order before multiplying, so that negative scalars work — by
`pmul Q k := (k mod N) * Q`.  Point equality, and hence the baby-step
dictionary keys `(x, y)` (affine coordinates determine a point of the group
uniquely, with infinity keyed as `(None, None)`), coincide under this
isomorphism with equality in `ZMod N`.

Public-key decompression (`calculate_public_key_point`) works on raw
coordinates and never interacts with the group structure of the search, so it
is modelled separately over `Nat` coordinates modulo the field prime `secp_p`.

Python's `math.sqrt`/`math.log2` floats in `solve_puzzle` are modelled by
their exact-real values (see `maxStepsOfInterval`); Python big-integer
arithmetic is exact and is modelled by `Nat`/`Int` directly.
-/

/-- Order of the secp256k1 group (`SECP256k1.order` in the source),
`0xFFFFFFFFFFFFFFFFFFFFFFFFFFFFFFFEBAAEDCE6AF48A03BBFD25E8CD0364141`. -/
def N : Nat := 0xFFFFFFFFFFFFFFFFFFFFFFFFFFFFFFFEBAAEDCE6AF48A03BBFD25E8CD0364141

/-- A point of the secp256k1 group, modelled by its discrete logarithm with
respect to the generator (see the header comment: `k ↦ G*k` is an isomorphism
from `ZMod N` onto the group, which has cofactor 1). -/
abbrev Point : Type := ZMod N

/-- The generator `self.G = SECP256k1.generator`, i.e. discrete logarithm 1. -/
def G_pt : Point := 1

/-- Scalar multiplication `Q * k` of `ecdsa.ellipticcurve.Point.__mul__`:
the scalar is first reduced modulo the group order (`e = other % self.__order`
in `ecdsa`), which is exactly the canonical map `Int → ZMod N`; this is how
negative scalars such as `-max_steps` on line 103 are supported. -/
def pmul (Q : Point) (k : Int) : Point := (k : ZMod N) * Q

/-- Point negation (`CurveGroup.negate` in the spec, `-P` in `ecdsa`). -/
def pneg (Q : Point) : Point := -Q

/-- The point `G * k` for a non-negative scalar `k` (e.g. `self.G * start` on
line 90 of the source).  Equals `pmul G_pt k`; see `gmul_eq_pmul`. -/
def gmul (k : Nat) : Point := (k : ZMod N)

/-- Lookup in the baby-step dictionary of `bsgs` (lines 86, 91-95 of the
source): the dictionary maps the coordinate key of `G*(start+i)` — the loop
accumulator starts at `self.G * start` and gains `self.G` per iteration — to
`i`, for `i` in `range(max_steps)`; a later insertion with an equal key
overwrites an earlier one, so membership plus indexing return the largest
matching `i`.  We model this by searching `i = count-1, ..., 0` and returning
the first (= largest) `i` with `G*(start+i) = key`. -/
def babyLookup (start : Nat) (key : Point) : Nat → Option Nat
  | 0 => none
  | i + 1 => if gmul (start + i) = key then some i else babyLookup start key i

/-- Giant-step loop of `bsgs` (lines 97-106 of the source): `cur` is the
loop variable `current` (initially the target point), `j` the loop index, and
`r` the number of iterations left (`max_steps - j`); `ms + j` is the running
`steps_tried` counter, which holds `max_steps` after the baby-step phase and
is incremented once per non-returning giant iteration.  On a dictionary hit at
offset `i` it returns `(start + j*max_steps + i, steps_tried)` (lines
101-102); otherwise it adds `self.G * (-max_steps)` and continues (line
103). -/
def giant (ms start : Nat) : Point → Nat → Nat → Option Nat × Nat
  | _, j, 0 => (none, ms + j)
  | cur, j, r + 1 =>
    match babyLookup start cur ms with
    | some i => (some (start + j * ms + i), ms + j)
    | none => giant ms start (cur + pmul G_pt (-(ms : Int))) (j + 1) r

/-- The method `KeyFinder.bsgs(target_point, max_steps, start)` (lines 84-106
of the source): baby-step table for offsets `0..max_steps-1` (its lookup is
`babyLookup`), then the giant-step loop starting at the target with
`steps_tried = max_steps` already accumulated by the baby phase. -/
def bsgs (target : Point) (ms start : Nat) : Option Nat × Nat :=
  giant ms start target 0 ms

/-- Error outcomes of the modelled operations.  `badHex` is Python's
`ValueError` from `int(s, 16)` on a non-hex string; `mathDomainError` is the
`ValueError: math domain error` that `math.sqrt`/`math.log2` raise on a
non-positive argument (line 114 of the source when `end_range < start_range`);
`invalidPoint` is `ecdsa`'s `SquareRootError` (the spec's Invalid-Point
error); `malformedKey` and `invalidRange` are the spec §7 error kinds
Malformed-Key and Invalid-Range, which the source never raises. -/
inductive Err : Type
  | badHex
  | mathDomainError
  | invalidPoint
  | malformedKey
  | invalidRange
deriving DecidableEq

instance decEqExcept {e a : Type} [DecidableEq e] [DecidableEq a] :
    DecidableEq (Except e a) := fun x y =>
  match x, y with
  | .ok u, .ok v => decidable_of_iff (u = v) (by simp)
  | .error u, .error v => decidable_of_iff (u = v) (by simp)
  | .ok _, .error _ => isFalse (by simp)
  | .error _, .ok _ => isFalse (by simp)

/-- Fuel-driven floor of the base-2 logarithm: `log2floorAux fuel n` equals
`⌊log2 n⌋` for `n ≥ 1` whenever `fuel ≥ n` (the fuel only forces structural
termination; see `log2floor`). -/
def log2floorAux : Nat → Nat → Nat
  | 0, _ => 0
  | fuel + 1, n => if 2 ≤ n then log2floorAux fuel (n / 2) + 1 else 0

/-- Floor of the base-2 logarithm of `n` (0 for `n = 0`). -/
def log2floor (n : Nat) : Nat := log2floorAux n n

/-- The window size `max_steps = 2 ** int(math.log2(math.sqrt(interval_size)))`
of line 114 of the source, modelled by the exact-real value of the float
expression: for an integer `L ≥ 1`, `⌊log2 (sqrt L)⌋ = ⌊⌊log2 L⌋ / 2⌋`, so the
exact value is `2 ^ (log2floor L / 2)`.  (The doubles round this exactly for
every `L` occurring in the concrete statements below; the float computation
itself is outside the embedding, see the C8 discussion.) -/
def maxStepsOfInterval (L : Nat) : Nat := 2 ^ (log2floor L / 2)

/-- Window loop of `solve_puzzle` (lines 123-128 of the source):
`for start in range(start_range, end_range, max_steps)` runs `bsgs` per
window, accumulates the returned step counts into `total_steps_tried`, and
breaks with the scalar on the first window whose result is not `None`.  The
`fuel` argument only forces structural termination; `er - start` iterations
always suffice because `max_steps ≥ 1`. -/
def scanLoopF : Nat → Point → Nat → Nat → Nat → Option Nat × Nat
  | 0, _, _, _, _ => (none, 0)
  | fuel + 1, t, ms, start, er =>
    if start < er then
      match bsgs t ms start with
      | (some k, steps) => (some k, steps)
      | (none, steps) =>
        let rest := scanLoopF fuel t ms (start + ms) er
        (rest.1, steps + rest.2)
    else (none, 0)

/-- The scan of `solve_puzzle` (lines 113-128 of the source) on the already
decompressed target point and the parsed range bounds: `interval_size =
end_range - start_range + 1` and the window size are computed first — for
`end_range < start_range` the float `math.sqrt` of the non-positive interval
raises `ValueError: math domain error` before any window is searched — and
then the window loop runs.  The result pairs the found scalar (or `None`)
with `total_steps_tried`. -/
def scan (t : Point) (sr er : Nat) : Except Err (Option Nat × Nat) :=
  if er < sr then .error .mathDomainError
  else .ok (scanLoopF (er - sr) t (maxStepsOfInterval (er - sr + 1)) sr er)

/-- Number of iterations of Python's `range(s, er, ms)` for `ms ≥ 1`, i.e. the
number of windows the scan visits when no key is found. -/
def numWindows (s er ms : Nat) : Nat := (er - s + ms - 1) / ms

/-- Value of a hex digit, as accepted by Python's `int(_, 16)`. -/
def hexDigit? (c : Char) : Option Nat :=
  if '0' ≤ c ∧ c ≤ '9' then some (c.toNat - '0'.toNat)
  else if 'a' ≤ c ∧ c ≤ 'f' then some (c.toNat - 'a'.toNat + 10)
  else if 'A' ≤ c ∧ c ≤ 'F' then some (c.toNat - 'A'.toNat + 10)
  else none

/-- Big-endian accumulation of hex digits; `none` on a non-digit. -/
def hexVal? : List Char → Nat → Option Nat
  | [], acc => some acc
  | c :: cs, acc =>
    match hexDigit? c with
    | some d => hexVal? cs (16 * acc + d)
    | none => none

/-- Python's `int(s, 16)` on plain hexadecimal strings (`none` models the
`ValueError` on an empty or non-hex string; the exotic forms `int` also
accepts — signs, underscores, an `0x` marker — do not occur in this
program). -/
def hexToNat? (l : List Char) : Option Nat :=
  if l.isEmpty then none else hexVal? l 0

/-- The range handling of `solve_puzzle(target_public_key, target_address,
start_range_hex, end_range_hex)` (lines 108-131 of the source), with the
decompressed target point passed directly (decompression itself is modelled
by `calculate_public_key_point`, and on line 116 it runs only after the
window size of line 114 has been computed, so a reversed range errors before
the target key is even decoded): the two hex bounds are parsed and the scan
runs. -/
def solve_puzzle (t : Point) (sr er : String) : Except Err (Option Nat × Nat) :=
  match hexToNat? sr.toList, hexToNat? er.toList with
  | some s, some e => scan t s e
  | _, _ => .error .badHex

/-- The secp256k1 field prime `self.curve.p()`,
`0xFFFFFFFFFFFFFFFFFFFFFFFFFFFFFFFFFFFFFFFFFFFFFFFFFFFFFFFEFFFFFC2F`. -/
def secp_p : Nat := 0xFFFFFFFFFFFFFFFFFFFFFFFFFFFFFFFFFFFFFFFFFFFFFFFFFFFFFFFEFFFFFC2F

/-- Fuel-driven square-and-multiply; `powModAux m fuel b e` equals
`b ^ e % m` whenever `fuel ≥ e` (each step halves `e`). -/
def powModAux (m : Nat) : Nat → Nat → Nat → Nat
  | 0, _, _ => 1 % m
  | fuel + 1, b, e =>
    if e = 0 then 1 % m
    else
      let half := powModAux m fuel (b * b % m) (e / 2)
      if e % 2 = 1 then half * b % m else half

/-- Python's three-argument `pow(b, e, m)` for `m > 0`. -/
def powMod (b e m : Nat) : Nat := powModAux m e b e

/-- Modelled from the spec: the external
`ecdsa.numbertheory.square_root_mod_prime(a, p)` called on line 74 of the
source is not part of this repository; spec §4.2 steps 3 describes it for the
secp256k1 prime (`p ≡ 3 mod 4`): the candidate root is `a ^ ((p+1)/4) mod p`
and if its square is not `a` the input has no square root — `ecdsa` then
raises `SquareRootError`, modelled as `none` (`a = 0` trivially yields 0). -/
def square_root_mod_prime? (a p : Nat) : Option Nat :=
  if a % p = 0 then some 0
  else
    let r := powMod a ((p + 1) / 4) p
    if r * r % p = a % p then some r else none

/-- Does the character list start with `'0', '2'` (Python's
`target_public_key.startswith('02')`)? -/
def startsWith02 : List Char → Bool
  | '0' :: '2' :: _ => true
  | _ => false

/-- Does the character list start with `'0', '3'` (Python's
`target_public_key.startswith('03')`)? -/
def startsWith03 : List Char → Bool
  | '0' :: '3' :: _ => true
  | _ => false

/-- The method `KeyFinder.calculate_public_key_point(target_public_key)`
(lines 69-82 of the source): `x = int(target_public_key[2:], 16)` (a
`ValueError` if the tail is empty or not hex), `y² = (x³ + a·x + b) mod p`
with `a = 0`, `b = 7`, the modular square root (`SquareRootError` when none
exists), and the parity adjustment `y ↦ p - y` when the prefix is `02` with
odd root or `03` with even root.  Note the source performs no length or
prefix validation whatsoever and reaches this code for any input string. -/
def calculate_public_key_point (pk : String) : Except Err (Nat × Nat) :=
  match hexToNat? (pk.toList.drop 2) with
  | none => .error .badHex
  | some x =>
    let y_square := (x ^ 3 + 0 * x + 7) % secp_p
    match square_root_mod_prime? y_square secp_p with
    | none => .error .invalidPoint
    | some r =>
      let y :=
        if (startsWith02 pk.toList = true ∧ r % 2 ≠ 0) ∨
            (startsWith03 pk.toList = true ∧ r % 2 = 0) then secp_p - r
        else r
      .ok (x, y)

/-! ### Basic facts about the model -/

lemma N_pos : 0 < N := by decide

lemma gmul_eq_pmul (k : Nat) : gmul k = pmul G_pt (k : Int) := by
  simp [gmul, pmul, G_pt]

/-- Two natural numbers within distance `N` of each other that map to the same
group element are equal (cast injectivity on an interval). -/
lemma natCast_inj_near {a b : Nat} (h : (a : ZMod N) = (b : ZMod N))
    (h1 : a < b + N) (h2 : b < a + N) : a = b := by
  have hmod := (ZMod.natCast_eq_natCast_iff a b N).1 h
  rcases le_total a b with hle | hle
  · have hdvd := (Nat.modEq_iff_dvd' hle).1 hmod
    have hz : b - a = 0 := Nat.eq_zero_of_dvd_of_lt hdvd (by omega)
    omega
  · have hdvd := (Nat.modEq_iff_dvd' hle).1 hmod.symm
    have hz : a - b = 0 := Nat.eq_zero_of_dvd_of_lt hdvd (by omega)
    omega

lemma pmul_G_neg_nat (ms : Nat) : pmul G_pt (-(ms : Int)) = -((ms : Nat) : ZMod N) := by
  simp [pmul, G_pt]

/-- Advancing the giant-step accumulator: adding `G * (-max_steps)` to the
point at giant index `j` yields the point at giant index `j + 1`. -/
lemma giant_step_point (t : Point) (j ms : Nat) :
    t - ((j * ms : Nat) : ZMod N) + pmul G_pt (-(ms : Int)) =
      t - (((j + 1) * ms : Nat) : ZMod N) := by
  rw [pmul_G_neg_nat]
  push_cast
  ring

/-! ### Baby-step table lemmas -/

lemma babyLookup_some {start : Nat} {key : Point} :
    ∀ {c i : Nat}, babyLookup start key c = some i → i < c ∧ gmul (start + i) = key := by
  intro c
  induction c with
  | zero => intro i h; simp [babyLookup] at h
  | succ c ih =>
    intro i h
    rw [babyLookup] at h
    split at h
    · rename_i heq
      cases h
      exact ⟨Nat.lt_succ_self c, heq⟩
    · rcases ih h with ⟨h1, h2⟩
      exact ⟨Nat.lt_succ_of_lt h1, h2⟩

lemma babyLookup_none {start : Nat} {key : Point} :
    ∀ {c : Nat}, babyLookup start key c = none → ∀ i < c, gmul (start + i) ≠ key := by
  intro c
  induction c with
  | zero => intro _ i hi; omega
  | succ c ih =>
    intro h i hi
    rw [babyLookup] at h
    split at h
    · cases h
    · rcases Nat.lt_succ_iff_lt_or_eq.1 hi with hlt | rfl
      · exact ih h i hlt
      · rename_i hne; exact hne

lemma babyLookup_ne_none {start : Nat} {key : Point} {c i : Nat}
    (hi : i < c) (hk : gmul (start + i) = key) : babyLookup start key c ≠ none := by
  intro h
  exact babyLookup_none h i hi hk

/-! ### Giant-step loop lemmas -/

/-- Soundness of the giant loop: a returned scalar decomposes as
`start + j'*ms + i` with a table hit at offset `i` at giant index `j'`, and
the step counter at the return is `ms + j'`. -/
lemma giant_some {ms start : Nat} {t : Point} :
    ∀ (r j s c : Nat),
      giant ms start (t - ((j * ms : Nat) : ZMod N)) j r = (some s, c) →
      ∃ j' i, j ≤ j' ∧ j' < j + r ∧ i < ms ∧ s = start + j' * ms + i ∧
        c = ms + j' ∧ gmul (start + i) = t - ((j' * ms : Nat) : ZMod N) := by
  intro r
  induction r with
  | zero => intro j s c h; simp [giant] at h
  | succ r ih =>
    intro j s c h
    rw [giant] at h
    cases hb : babyLookup start (t - ((j * ms : Nat) : ZMod N)) ms with
    | some i =>
      rw [hb] at h
      rcases babyLookup_some hb with ⟨hi, hk⟩
      cases h
      exact ⟨j, i, le_refl j, by omega, hi, rfl, rfl, hk⟩
    | none =>
      rw [hb] at h
      rw [giant_step_point] at h
      rcases ih (j + 1) s c h with ⟨j', i, hj1, hj2, hi, hs, hc, hk⟩
      exact ⟨j', i, by omega, by omega, hi, hs, hc, hk⟩

lemma giant_succ_some {ms start j r i : Nat} {cur : Point}
    (hb : babyLookup start cur ms = some i) :
    giant ms start cur j (r + 1) = (some (start + j * ms + i), ms + j) := by
  rw [giant, hb]

lemma giant_succ_none {ms start j r : Nat} {cur : Point}
    (hb : babyLookup start cur ms = none) :
    giant ms start cur j (r + 1) =
      giant ms start (cur + pmul G_pt (-(ms : Int))) (j + 1) r := by
  rw [giant, hb]

/-- When the giant loop finds nothing, the step counter on exit is
`ms + (j + r)` (the baby-phase count plus one per giant iteration). -/
lemma giant_none_steps {ms start : Nat} :
    ∀ (r j : Nat) (cur : Point), (giant ms start cur j r).1 = none →
      giant ms start cur j r = (none, ms + (j + r)) := by
  intro r
  induction r with
  | zero => intro j cur _; simp [giant]
  | succ r ih =>
    intro j cur h
    cases hb : babyLookup start cur ms with
    | some i => rw [giant_succ_some hb] at h; simp at h
    | none =>
      rw [giant_succ_none hb] at h ⊢
      have := ih (j + 1) (cur + pmul G_pt (-(ms : Int))) h
      rw [this]
      congr 1
      omega

/-- If the target point is not `G*(start + j'*ms + i)` for any giant index
`j'` and offset `i` still to be visited, the giant loop finds nothing. -/
lemma giant_none_of {ms start : Nat} {t : Point} :
    ∀ (r j : Nat),
      (∀ j' i, j ≤ j' → j' < j + r → i < ms → t ≠ gmul (start + j' * ms + i)) →
      (giant ms start (t - ((j * ms : Nat) : ZMod N)) j r).1 = none := by
  intro r
  induction r with
  | zero => intro j _; simp [giant]
  | succ r ih =>
    intro j hno
    rw [giant]
    cases hb : babyLookup start (t - ((j * ms : Nat) : ZMod N)) ms with
    | some i =>
      rcases babyLookup_some hb with ⟨hi, hk⟩
      exfalso
      refine hno j i (le_refl j) (by omega) hi ?_
      have : t = gmul (start + i) + ((j * ms : Nat) : ZMod N) := by
        rw [hk]; ring
      rw [this, gmul, gmul]
      push_cast
      ring
    | none =>
      rw [giant_step_point]
      exact ih (j + 1) (fun j' i h1 h2 h3 => hno j' i (by omega) (by omega) h3)

/-! ### bsgs lemmas -/

lemma sub_zero_cast (t : Point) (ms : Nat) : t - ((0 * ms : Nat) : ZMod N) = t := by
  simp

/-- Unfolding a collision equation: if the baby key `G*a` equals the giant
point `t - b`, then the derived scalar `a + b` maps to the target. -/
lemma shift_eq {a b : Nat} {t : Point} (h : gmul a = t - ((b : Nat) : ZMod N)) :
    ((a + b : Nat) : ZMod N) = t := by
  rw [gmul] at h
  push_cast
  rw [h]
  ring

/-- Soundness: a scalar returned by `bsgs` decomposes as `start + j*ms + i`
with `j, i < ms`, maps to the target point, and the reported step count is
`ms + j`. -/
lemma bsgs_eq_some {t : Point} {ms start s c : Nat}
    (h : bsgs t ms start = (some s, c)) :
    ∃ j i, j < ms ∧ i < ms ∧ s = start + j * ms + i ∧ c = ms + j ∧
      ((s : Nat) : ZMod N) = t := by
  rw [bsgs] at h
  rw [← sub_zero_cast t ms] at h
  rcases giant_some ms 0 s c h with ⟨j', i, _, hj2, hi, hs, hc, hk⟩
  refine ⟨j', i, by omega, hi, hs, hc, ?_⟩
  have := shift_eq hk
  rw [hs]
  rw [← this]
  congr 1
  omega

/-- When `bsgs` reports not-found, the full pair is `(none, ms + ms)`. -/
lemma bsgs_none_pair {t : Point} {ms start : Nat}
    (h : (bsgs t ms start).1 = none) : bsgs t ms start = (none, ms + ms) := by
  rw [bsgs] at h ⊢
  have := giant_none_steps ms 0 t h
  rw [this]
  norm_num

/-- If no scalar in `[start, start + ms*ms)` maps to the target point, `bsgs`
reports not-found. -/
lemma bsgs_none_of {t : Point} {ms start : Nat}
    (h : ∀ c, start ≤ c → c < start + ms * ms → t ≠ gmul c) :
    (bsgs t ms start).1 = none := by
  rw [bsgs, ← sub_zero_cast t ms]
  refine giant_none_of ms 0 ?_
  intro j' i _ hj' hi
  refine h (start + j' * ms + i) (by omega) ?_
  have e1 : j' * ms + ms = (j' + 1) * ms := by ring
  have e2 : (j' + 1) * ms ≤ ms * ms := by
    have := Nat.mul_le_mul_right ms (show j' + 1 ≤ ms by omega)
    omega
  omega

/-- Completeness of one `bsgs` window in the absence of modular wraparound:
if `ms² ≤ N`, `k < N` and `start ≤ k < start + ms²`, the window finds exactly
`k`. -/
lemma bsgs_finds {ms start k : Nat} (hsq : ms * ms ≤ N)
    (h1 : start ≤ k) (h2 : k < start + ms * ms) :
    (bsgs (gmul k) ms start).1 = some k := by
  have hms : 0 < ms := by
    rcases Nat.eq_zero_or_pos ms with h | h
    · subst h; omega
    · exact h
  obtain ⟨d, hd⟩ : ∃ d, k = start + d := ⟨k - start, by omega⟩
  have hdM : d < ms * ms := by omega
  obtain ⟨j0, i0, hdm, hi0lt, hj0lt⟩ :
      ∃ j0 i0, ms * j0 + i0 = d ∧ i0 < ms ∧ j0 < ms :=
    ⟨d / ms, d % ms, Nat.div_add_mod d ms, Nat.mod_lt d hms,
      (Nat.div_lt_iff_lt_mul hms).2 hdM⟩
  have main : ∀ r j, j ≤ j0 → j0 < j + r →
      (giant ms start (gmul k - ((j * ms : Nat) : ZMod N)) j r).1 = some k := by
    intro r
    induction r with
    | zero => intro j hj1 hj2; omega
    | succ r ih =>
      intro j hj1 hj2
      rcases Nat.lt_or_ge j j0 with hjlt | hjge
      · have hnone : babyLookup start (gmul k - ((j * ms : Nat) : ZMod N)) ms = none := by
          cases hb : babyLookup start (gmul k - ((j * ms : Nat) : ZMod N)) ms with
          | none => rfl
          | some i =>
            exfalso
            rcases babyLookup_some hb with ⟨hi, hkey⟩
            have hc : ((start + i + j * ms : Nat) : ZMod N) = gmul k := shift_eq hkey
            have hlt1 : start + i + j * ms < k := by
              have e1 : (j + 1) * ms ≤ j0 * ms := Nat.mul_le_mul_right ms (by omega)
              have e3 : j0 * ms = ms * j0 := Nat.mul_comm _ _
              have e4 : j * ms + ms = (j + 1) * ms := by ring
              omega
            have := natCast_inj_near hc (by omega) (by omega)
            omega
        rw [giant_succ_none hnone, giant_step_point]
        exact ih (j + 1) (by omega) (by omega)
      · have hj : j = j0 := by omega
        have hmatch : gmul (start + i0) = gmul k - ((j * ms : Nat) : ZMod N) := by
          have hke : k = start + i0 + j * ms := by
            have e3 : j * ms = ms * j0 := by rw [hj]; exact Nat.mul_comm _ _
            omega
          simp only [gmul]
          rw [hke]
          push_cast
          ring
        cases hb : babyLookup start (gmul k - ((j * ms : Nat) : ZMod N)) ms with
        | none => exact absurd hb (babyLookup_ne_none hi0lt hmatch)
        | some i =>
          rcases babyLookup_some hb with ⟨hi, hkey⟩
          have hc : ((start + i + j * ms : Nat) : ZMod N) = gmul k := shift_eq hkey
          have hceq : start + i + j * ms = k := by
            refine natCast_inj_near hc ?_ ?_
            · have e1 : (j + 1) * ms ≤ ms * ms := by
                have := Nat.mul_le_mul_right ms (show j + 1 ≤ ms by omega)
                omega
              have e4 : j * ms + ms = (j + 1) * ms := by ring
              omega
            · omega
          rw [giant_succ_some hb]
          simp
          omega
  have := main ms 0 (by omega) (by omega)
  rw [bsgs, ← sub_zero_cast (gmul k) ms]
  exact this

/-! ### Window-size lemmas -/

lemma log2floorAux_pow_le : ∀ (fuel n : Nat), 1 ≤ n → n ≤ fuel →
    2 ^ log2floorAux fuel n ≤ n := by
  intro fuel
  induction fuel with
  | zero => intro n h1 h2; omega
  | succ fuel ih =>
    intro n h1 h2
    rw [log2floorAux]
    split
    · rename_i h
      have ihh := ih (n / 2) (by omega) (by omega)
      calc 2 ^ (log2floorAux fuel (n / 2) + 1) = 2 * 2 ^ log2floorAux fuel (n / 2) := by ring
        _ ≤ 2 * (n / 2) := by omega
        _ ≤ n := by omega
    · simpa using h1

lemma pow_log2floor_le {n : Nat} (h : 1 ≤ n) : 2 ^ log2floor n ≤ n :=
  log2floorAux_pow_le n n h (le_refl n)

lemma maxStepsOfInterval_pos (L : Nat) : 0 < maxStepsOfInterval L :=
  Nat.pos_pow_of_pos _ (by omega)

lemma maxStepsOfInterval_sq_le {L : Nat} (h : 1 ≤ L) :
    maxStepsOfInterval L * maxStepsOfInterval L ≤ L := by
  have h1 : maxStepsOfInterval L * maxStepsOfInterval L =
      2 ^ (log2floor L / 2 + log2floor L / 2) := by
    rw [maxStepsOfInterval, ← pow_add]
  have h2 : (2 : Nat) ^ (log2floor L / 2 + log2floor L / 2) ≤ 2 ^ log2floor L :=
    Nat.pow_le_pow_right (by omega) (by omega)
  calc maxStepsOfInterval L * maxStepsOfInterval L
      = 2 ^ (log2floor L / 2 + log2floor L / 2) := h1
    _ ≤ 2 ^ log2floor L := h2
    _ ≤ L := pow_log2floor_le h

/-! ### Scan-loop lemmas -/

lemma scanLoopF_zero_fuel (t : Point) (ms start er : Nat) :
    scanLoopF 0 t ms start er = (none, 0) := rfl

lemma scanLoopF_stop {fuel : Nat} {t : Point} {ms start er : Nat} (h : ¬ start < er) :
    scanLoopF fuel t ms start er = (none, 0) := by
  cases fuel with
  | zero => rfl
  | succ fuel => rw [scanLoopF, if_neg h]

lemma scanLoopF_found {fuel : Nat} {t : Point} {ms start er k steps : Nat}
    (h : start < er) (hb : bsgs t ms start = (some k, steps)) :
    scanLoopF (fuel + 1) t ms start er = (some k, steps) := by
  rw [scanLoopF, if_pos h, hb]

lemma scanLoopF_next {fuel : Nat} {t : Point} {ms start er steps : Nat}
    (h : start < er) (hb : bsgs t ms start = (none, steps)) :
    scanLoopF (fuel + 1) t ms start er =
      ((scanLoopF fuel t ms (start + ms) er).1,
        steps + (scanLoopF fuel t ms (start + ms) er).2) := by
  rw [scanLoopF, if_pos h, hb]

/-- Completeness of the window loop: with no modular wraparound
(`ms² ≤ N`, `k < N`), enough fuel and `s ≤ k < er`, the loop finds `k`. -/
lemma scanLoopF_finds {ms k er : Nat} (hms : 0 < ms) (hsq : ms * ms ≤ N)
    (hk : k < N) (hker : k < er) :
    ∀ (fuel s : Nat), er ≤ s + fuel → s ≤ k →
      (scanLoopF fuel (gmul k) ms s er).1 = some k := by
  intro fuel
  induction fuel with
  | zero => intro s h1 h2; omega
  | succ fuel ih =>
    intro s h1 h2
    have hser : s < er := by omega
    rcases Nat.lt_or_ge k (s + ms * ms) with hin | hout
    · have hfound := bsgs_finds hsq h2 hin
      rcases hbv : bsgs (gmul k) ms s with ⟨res, steps⟩
      rw [hbv] at hfound
      simp at hfound
      rw [hfound] at hbv
      rw [scanLoopF_found hser hbv]
    · have hnone : (bsgs (gmul k) ms s).1 = none := by
        refine bsgs_none_of ?_
        intro c hc1 hc2 hgc
        have hck : c = k := @natCast_inj_near c k hgc.symm (by omega) (by omega)
        omega
      rcases hbv : bsgs (gmul k) ms s with ⟨res, steps⟩
      rw [hbv] at hnone
      simp at hnone
      rw [hnone] at hbv
      rw [scanLoopF_next hser hbv]
      have hmssq : ms ≤ ms * ms := Nat.le_mul_of_pos_left ms hms
      exact ih (s + ms) (by omega) (by omega)

/-- Soundness of the window loop: if no scalar in `[lo, er + ms*ms)` maps to
the target, no window (each of which starts at some `s ≥ lo` and can only
derive scalars below `s + ms*ms < er + ms*ms`) finds anything. -/
lemma scanLoopF_none {t : Point} {ms er lo : Nat}
    (h : ∀ c, lo ≤ c → c < er + ms * ms → t ≠ gmul c) :
    ∀ (fuel s : Nat), lo ≤ s → (scanLoopF fuel t ms s er).1 = none := by
  intro fuel
  induction fuel with
  | zero => intro s _; rfl
  | succ fuel ih =>
    intro s hlo
    rcases Nat.lt_or_ge s er with hser | hser
    · have hnone : (bsgs t ms s).1 = none := by
        refine bsgs_none_of ?_
        intro c hc1 hc2
        exact h c (by omega) (by omega)
      rcases hbv : bsgs t ms s with ⟨res, steps⟩
      rw [hbv] at hnone
      simp at hnone
      rw [hnone] at hbv
      rw [scanLoopF_next hser hbv]
      exact ih (s + ms) (by omega)
    · rw [scanLoopF_stop (by omega)]

/-- One window advances the `numWindows` count by one. -/
lemma numWindows_succ {s er ms : Nat} (hms : 0 < ms) (hser : s < er) :
    numWindows s er ms = numWindows (s + ms) er ms + 1 := by
  rw [numWindows, numWindows]
  have hd : 1 ≤ er - s := by omega
  rcases Nat.lt_or_ge s (er - ms) with hcase | hcase
  · have e1 : er - s + ms - 1 = (er - s - 1) + ms := by omega
    have e2 : er - (s + ms) + ms - 1 = er - s - 1 - ms + ms := by omega
    have e3 : er - s - 1 - ms + ms = er - s - 1 := by omega
    rw [e1, Nat.add_div_right _ hms, e2, e3]
  · have e1 : er - s + ms - 1 = (er - s - 1) + ms := by omega
    have e2 : er - (s + ms) = 0 := by omega
    rw [e1, Nat.add_div_right _ hms, e2]
    have e3 : er - s - 1 < ms := by omega
    rw [Nat.div_eq_of_lt e3]
    have e4 : (0 + ms - 1) / ms = 0 := Nat.div_eq_of_lt (by omega)
    rw [e4]

/-- Step-count accounting of the window loop: when nothing is found the total
is `2*ms` per visited window; when a scalar is found the total is `2*ms` for
each fully searched window plus `ms + j` for the found window, `j < ms` being
its giant-step index. -/
lemma scanLoopF_steps {t : Point} {ms er : Nat} (hms : 0 < ms) :
    ∀ (fuel s : Nat), er ≤ s + fuel →
      ((scanLoopF fuel t ms s er).1 = none →
        (scanLoopF fuel t ms s er).2 = 2 * ms * numWindows s er ms) ∧
      (∀ k, (scanLoopF fuel t ms s er).1 = some k →
        ∃ w j, j < ms ∧ (scanLoopF fuel t ms s er).2 = 2 * ms * w + (ms + j)) := by
  intro fuel
  induction fuel with
  | zero =>
    intro s h1
    constructor
    · intro _
      have : numWindows s er ms = 0 := by
        rw [numWindows]
        exact Nat.div_eq_of_lt (by omega)
      rw [scanLoopF_zero_fuel, this]
      simp
    · intro k hk
      rw [scanLoopF_zero_fuel] at hk
      simp at hk
  | succ fuel ih =>
    intro s h1
    rcases Nat.lt_or_ge s er with hser | hser
    · rcases hbv : bsgs t ms s with ⟨res, steps⟩
      cases res with
      | some k0 =>
        rw [scanLoopF_found hser hbv]
        constructor
        · intro h; simp at h
        · intro k hk
          simp at hk
          rcases bsgs_eq_some hbv with ⟨j, i, hj, hi, _, hc, _⟩
          exact ⟨0, j, hj, by omega⟩
      | none =>
        have hsteps : steps = 2 * ms := by
          have := @bsgs_none_pair t ms s (by rw [hbv])
          rw [hbv] at this
          simp at this
          omega
        rw [scanLoopF_next hser hbv]
        rcases ih (s + ms) (by omega) with ⟨ihn, ihs⟩
        constructor
        · intro h
          simp at h ⊢
          rw [ihn h, hsteps, numWindows_succ hms hser]
          ring
        · intro k hk
          simp at hk ⊢
          rcases ihs k hk with ⟨w, j, hj, hw⟩
          refine ⟨w + 1, j, hj, ?_⟩
          rw [hw, hsteps]
          ring
    · rw [scanLoopF_stop (by omega)]
      constructor
      · intro _
        have : numWindows s er ms = 0 := by
          rw [numWindows]
          exact Nat.div_eq_of_lt (by omega)
        rw [this]
        simp
      · intro k hk
        simp at hk

/-! ### Claim theorems -/

/-- C2: whenever `bsgs` returns a found scalar (non-`none` first component),
that scalar `s` satisfies `generator * s = targetPoint` exactly: a collision
between the giant-step point and a baby-step entry at offset `i` during giant
index `j` forces `target = G*(start + j*windowSize + i)`, which is the
returned scalar. -/
theorem bsgs_found_scalar_exact (t : Point) (ms start s c : Nat)
    (h : bsgs t ms start = (some s, c)) : gmul s = t := by
  rcases bsgs_eq_some h with ⟨j, i, _, _, _, _, hc⟩
  exact hc

/-- Witness for C2 at the concrete input `target = G*5`, `windowSize = 2`,
`start = 4`, where `bsgs` returns `(some 5, 2)`. -/
theorem bsgs_found_scalar_exact_witness : gmul 5 = pmul G_pt 5 :=
  bsgs_found_scalar_exact (pmul G_pt 5) 2 4 5 2 (by decide)

/-- C7: for every target point, start scalar and `windowSize ≥ 1`, when
`bsgs` finds no match during the full giant-step phase it returns the pair
`(none, 2 * windowSize)`. -/
theorem bsgs_not_found_steps (t : Point) (ms start : Nat) (_hms : 1 ≤ ms)
    (h : (bsgs t ms start).1 = none) : bsgs t ms start = (none, 2 * ms) := by
  rw [bsgs_none_pair h, two_mul]

/-- Witness for C7 at `target = G*5`, `windowSize = 1`, `start = 0`. -/
theorem bsgs_not_found_steps_witness : bsgs (gmul 5) 1 0 = (none, 2 * 1) :=
  bsgs_not_found_steps (gmul 5) 1 0 (by decide) (by decide)

/-- C9: multiplying a point by a negated scalar equals negating the forward
multiple, `scalarMultiply(P, -k) = negate(scalarMultiply(P, k))`; with
`P := G_pt` and `k := windowSize` this is the backward giant step of
`bsgs`. -/
theorem pmul_neg_eq_pneg_pmul (Q : Point) (k : Nat) :
    pmul Q (-(k : Int)) = pneg (pmul Q (k : Int)) := by
  simp [pmul, pneg]

/-- C10 (amended): in the absence of modular wraparound
(`windowSize² ≤ N`), a single `bsgs` invocation finds every scalar of the
square window `[start, start + windowSize²)`, far beyond the nominal window
`[start, start + windowSize)`. -/
theorem bsgs_finds_within_squared_window (ms start k : Nat)
    (hsq : ms * ms ≤ N) (h1 : start ≤ k) (h2 : k < start + ms * ms) :
    (bsgs (gmul k) ms start).1 = some k :=
  bsgs_finds hsq h1 h2

/-- Witness for C10 at `windowSize = 2`, `start = 1`, `k = 4`; the returned
scalar 4 lies outside the nominal window `[1, 3)`. -/
theorem bsgs_finds_within_squared_window_witness :
    1 ≤ 4 ∧ 4 < 1 + 2 * 2 ∧ (bsgs (gmul 4) 2 1).1 = some 4 :=
  ⟨by decide, by decide,
    bsgs_finds_within_squared_window 2 1 4 (by decide) (by decide) (by decide)⟩

lemma babyLookup_gmul_order : ∀ c, c ≤ N →
    babyLookup 0 (gmul N) c = (if 0 < c then some 0 else none) := by
  intro c
  induction c with
  | zero => intro _; rfl
  | succ c ih =>
    intro hc
    rw [babyLookup]
    rcases Nat.eq_zero_or_pos c with h0 | h0
    · subst h0
      have hcond : gmul (0 + 0) = gmul N := by
        simp [gmul, ZMod.natCast_self]
      rw [if_pos hcond, if_pos (by omega)]
    · have hcond : ¬ gmul (0 + c) = gmul N := by
        intro h
        have hNc : ((N : Nat) : ZMod N) = ((0 + c : Nat) : ZMod N) := h.symm
        have := natCast_inj_near hNc (by omega) (by omega)
        omega
      rw [if_neg hcond, ih (by omega), if_pos h0, if_pos (by omega)]

/-- Counterexample for C10 as stated (with no bound on the window size): at
`windowSize = N`, `start = 0` and `k = N` — which satisfies
`start ≤ k < start + windowSize²` — `bsgs(G*k, windowSize, start)` returns
the scalar 0, not `k`, because `G*N = G*0` wraps around the group order. -/
theorem bsgs_wraps_beyond_group_order :
    bsgs (gmul N) N 0 = (some 0, N) ∧ some (0 : Nat) ≠ some N ∧
      0 ≤ N ∧ N < 0 + N * N := by
  refine ⟨?_, ?_, by omega, ?_⟩
  · rw [bsgs]
    have hb : babyLookup 0 (gmul N) N = some 0 := by
      rw [babyLookup_gmul_order N (le_refl N), if_pos N_pos]
    have hsplit : giant N 0 (gmul N) 0 N = giant N 0 (gmul N) 0 ((N - 1) + 1) := rfl
    rw [hsplit, giant_succ_some hb]
    norm_num
  · intro h
    simp at h
    have := N_pos
    omega
  · have h1 : 2 ≤ N := by decide
    have h3 : 2 * N ≤ N * N := Nat.mul_le_mul_right N h1
    omega

/-- C1 (amended): for every range and every scalar `k` with
`lo ≤ k < hi < N` (strictly below the end of the range, which lies below the
group order), the top-level scan with target point `G*k` returns `k` as a
found result.  As stated the claim fails at `k = hi` (see the
counterexample): the window loop `range(start_range, end_range, max_steps)`
excludes `end_range`, and for `lo = hi` no window runs at all. -/
theorem scan_returns_key_of_lt_end (lo k hi : Nat) (h1 : lo ≤ k) (h2 : k < hi)
    (h3 : hi < N) : ∃ c, scan (gmul k) lo hi = .ok (some k, c) := by
  have hnot : ¬ hi < lo := by omega
  rw [scan, if_neg hnot]
  have hms : 0 < maxStepsOfInterval (hi - lo + 1) := maxStepsOfInterval_pos _
  have hsq : maxStepsOfInterval (hi - lo + 1) * maxStepsOfInterval (hi - lo + 1) ≤ N := by
    have := maxStepsOfInterval_sq_le (show 1 ≤ hi - lo + 1 by omega)
    omega
  have hfind := scanLoopF_finds hms hsq (by omega) h2 (hi - lo) lo (by omega) h1
  rcases hv : scanLoopF (hi - lo) (gmul k) (maxStepsOfInterval (hi - lo + 1)) lo hi
    with ⟨res, tot⟩
  rw [hv] at hfind
  simp at hfind
  exact ⟨tot, by rw [hfind]⟩

/-- Witness for C1 (amended) at `lo = 3`, `k = 7`, `hi = 10`. -/
theorem scan_returns_key_witness : ∃ c, scan (gmul 7) 3 10 = .ok (some 7, c) :=
  scan_returns_key_of_lt_end 3 7 10 (by decide) (by decide) (by decide)

/-- Counterexample for C1 as stated: for the range `[0, 0]` and the in-range
scalar `k = 0`, the scan returns not-found (`range(0, 0, 1)` is empty), not
the scalar `0` that the claim promises. -/
theorem scan_misses_singleton_range :
    scan (gmul 0) 0 0 = .ok (none, 0) ∧
      ¬ ∃ c, scan (gmul 0) 0 0 = .ok (some 0, c) := by
  constructor
  · decide
  · rintro ⟨c, hc⟩
    rw [(by decide : scan (gmul 0) 0 0 = Except.ok ((none : Option Nat), 0))] at hc
    simp at hc

/-- C3 (amended): the scan returns the not-found outcome whenever the target
point is not `G*c` for any `c` in `[lo, hi + windowSize²)` — the reach of the
visited windows.  As stated (with the smaller exclusion zone `[lo, hi]`) the
claim fails because a window can find scalars up to `windowSize² - 1` past
its start, hence past `hi` (see the counterexample). -/
theorem scan_not_found_of_no_key_in_reach (t : Point) (lo hi : Nat)
    (h0 : lo ≤ hi)
    (h : ∀ c, lo ≤ c →
      c < hi + maxStepsOfInterval (hi - lo + 1) * maxStepsOfInterval (hi - lo + 1) →
      t ≠ gmul c) :
    ∃ tot, scan t lo hi = .ok (none, tot) := by
  have hnot : ¬ hi < lo := by omega
  rw [scan, if_neg hnot]
  have hnone := scanLoopF_none h (hi - lo) lo (le_refl lo)
  rcases hv : scanLoopF (hi - lo) t (maxStepsOfInterval (hi - lo + 1)) lo hi
    with ⟨res, tot⟩
  rw [hv] at hnone
  simp at hnone
  exact ⟨tot, by rw [hnone]⟩

/-- Witness for C3 (amended): on the range `[0, 3]` (window size 2) with
target `G*9`, where 9 is beyond even the window reach `[0, 7)`, the scan
reports not-found. -/
theorem scan_not_found_witness : ∃ tot, scan (gmul 9) 0 3 = .ok (none, tot) := by
  have hb : ∀ c,
      c < 3 + maxStepsOfInterval (3 - 0 + 1) * maxStepsOfInterval (3 - 0 + 1) →
      gmul 9 ≠ gmul c := by decide
  exact scan_not_found_of_no_key_in_reach (gmul 9) 0 3 (by decide)
    (fun c _ hc => hb c hc)

/-- Counterexample for C3 as stated: the target `G*5` is not `G*c` for any
`c` in the range `[0, 3]`, yet the scan of `[0, 3]` finds and returns 5 (the
second window, starting at 2, reaches up to `2 + 2² - 1 = 5`). -/
theorem scan_finds_key_beyond_range :
    scan (gmul 5) 0 3 = .ok (some 5, 7) ∧
      gmul 5 ≠ gmul 0 ∧ gmul 5 ≠ gmul 1 ∧ gmul 5 ≠ gmul 2 ∧ gmul 5 ≠ gmul 3 := by
  decide

/-- C6 (amended): the total operation count of the scan equals
`2 * windowSize * numberOfWindows` when nothing is found — but when a scalar
is found the last (found) window contributes only `windowSize + j` with
`j < windowSize` the giant index of the hit, not `2 * windowSize`, so the
total is `2 * windowSize * w + windowSize + j` with `w` the number of fully
searched windows.  As stated (`2 · windowSize · windowsVisited` including the
found window) the claim fails, see the counterexample. -/
theorem scan_total_steps_characterization (t : Point) (lo hi : Nat)
    (res : Option Nat) (tot : Nat) (h : scan t lo hi = .ok (res, tot)) :
    (res = none → tot = 2 * maxStepsOfInterval (hi - lo + 1) *
        numWindows lo hi (maxStepsOfInterval (hi - lo + 1))) ∧
    (∀ k, res = some k → ∃ w j, j < maxStepsOfInterval (hi - lo + 1) ∧
        tot = 2 * maxStepsOfInterval (hi - lo + 1) * w +
          (maxStepsOfInterval (hi - lo + 1) + j)) := by
  rw [scan] at h
  by_cases hlt : hi < lo
  · rw [if_pos hlt] at h
    simp at h
  · rw [if_neg hlt] at h
    simp at h
    have hsteps := @scanLoopF_steps t (maxStepsOfInterval (hi - lo + 1)) hi
      (maxStepsOfInterval_pos _) (hi - lo) lo (by omega)
    rw [h] at hsteps
    simpa using hsteps

/-- Witness for C6 (amended), not-found branch: scanning `[0, 3]` for `G*9`
costs `8 = 2 * 2 * 2` operations over 2 windows of size 2. -/
theorem scan_total_steps_witness :
    (8 : Nat) = 2 * maxStepsOfInterval (3 - 0 + 1) *
      numWindows 0 3 (maxStepsOfInterval (3 - 0 + 1)) :=
  (scan_total_steps_characterization (gmul 9) 0 3 none 8 (by decide)).1 rfl

/-- Counterexample for C6 as stated: scanning `[0, 3]` for `G*0` finds the
scalar in the first window at giant index 0 after `2 = windowSize + 0`
operations, but `2 · windowSize · numberOfWindowsVisited = 2 * 2 * 1 = 4`. -/
theorem scan_total_steps_cex :
    scan (gmul 0) 0 3 = .ok (some 0, 2) ∧ maxStepsOfInterval (3 - 0 + 1) = 2 ∧
      (2 : Nat) ≠ 2 * 2 * 1 := by
  decide

/-- C4 (amended): `calculate_public_key_point` performs no length or prefix
validation at all and can never fail with a Malformed-Key error on any input
string; in particular the claim's input `"01" + 64·"0"` instead fails with
the Invalid-Point (no modular square root) error, because `x = 0` gives
`y² = 7` and 7 is not a quadratic residue modulo the field prime (see the
counterexample). -/
theorem calculate_public_key_point_never_malformed (pk : String) :
    calculate_public_key_point pk ≠ Except.error Err.malformedKey := by
  unfold calculate_public_key_point
  split
  · simp
  · dsimp only
    split
    · simp
    · split <;> simp

/-- Witness for C4 (amended) at the invalid-prefix input `"04"`. -/
theorem calculate_public_key_point_never_malformed_witness :
    calculate_public_key_point "04" ≠ Except.error Err.malformedKey :=
  calculate_public_key_point_never_malformed "04"

set_option maxRecDepth 10000 in
/-- Counterexample for C4 as stated: the claim's own input, `"01"` followed
by 64 zero hex digits, fails with the Invalid-Point (square-root) error of a
non-residue `y² = 7`, not with a Malformed-Key error — the prefix is never
inspected for validity. -/
theorem calculate_public_key_point_invalid_prefix_cex :
    calculate_public_key_point
        "010000000000000000000000000000000000000000000000000000000000000000"
      = Except.error Err.invalidPoint ∧
    (Except.error Err.invalidPoint : Except Err (Nat × Nat)) ≠
      Except.error Err.malformedKey :=
  ⟨by decide, by decide⟩

/-- C5 (amended): for every pair of hex range bounds with
`endRange < startRange`, `solve_puzzle` fails before performing any window
search — but with the `math domain error` `ValueError` raised by
`math.sqrt` on the non-positive interval length, not with a dedicated
Invalid-Range error (the source performs no range validation; see the
counterexample). -/
theorem solve_puzzle_reversed_range_math_domain (t : Point) (sr er : String)
    (s e : Nat) (hs : hexToNat? sr.toList = some s)
    (he : hexToNat? er.toList = some e) (hlt : e < s) :
    solve_puzzle t sr er = Except.error Err.mathDomainError := by
  rw [solve_puzzle, hs, he]
  show scan t s e = Except.error Err.mathDomainError
  rw [scan, if_pos hlt]

/-- Witness for C5 (amended) at the claim's bounds `"fffff" > "80000"`. -/
theorem solve_puzzle_reversed_range_witness :
    solve_puzzle (gmul 2) "fffff" "80000" = Except.error Err.mathDomainError :=
  solve_puzzle_reversed_range_math_domain (gmul 2) "fffff" "80000"
    1048575 524288 (by decide) (by decide) (by decide)

/-- Counterexample for C5 as stated: at the claim's own bounds
(`start_range_hex = "fffff"`, `end_range_hex = "80000"`) the failure is the
math-domain error, which is not the Invalid-Range error the claim (and spec
§7) promises. -/
theorem solve_puzzle_reversed_range_cex :
    solve_puzzle (gmul 1) "fffff" "80000" = Except.error Err.mathDomainError ∧
      Err.mathDomainError ≠ Err.invalidRange :=
  ⟨by decide, by decide⟩
